import Mathlib

/-!
Verification of the Sprint & Capacity Aggregation Engine of the
ado-duedate-generator repository (main.go), against its natural-language
specification.

Modelling conventions:
* Go `time.Time` values are modelled as `Int` seconds since the Unix epoch,
  in a single fixed offset (UTC).  The Go zero value `time.Time{}`
  (January 1, year 1, 00:00:00 UTC) is the constant `goZeroTime`.
  `t.Weekday()` is derived from the epoch-day number (epoch day 0,
  1970-01-01, was a Thursday; Go numbers Sunday = 0 .. Saturday = 6).
* `current.Add(24 * time.Hour)` adds 86400 seconds of absolute time, which
  in a fixed offset is exactly one calendar day of wall clock.
* `float64` capacity arithmetic is modelled with `ℚ`; all values that occur
  (8.0, small sums and products) are exactly representable in float64.
-/

namespace AdoDueDate

/-- The Go zero `time.Time{}` (Jan 1, year 1, 00:00:00 UTC) in Unix seconds.
Throughout the file, Go `time.Time` values are plain `Int` seconds since the
Unix epoch. -/
def goZeroTime : Int := -62135596800

/-- `t.IsZero()` for the sprint-date fields (they are plain `time.Time` values,
so an absent upstream date leaves the Go zero value). -/
def isZero (t : Int) : Bool := t == goZeroTime

/-- Go weekday numbering of an absolute day number: Sunday = 0 .. Saturday = 6.
Epoch day 0 (1970-01-01) was a Thursday (= 4). -/
def dayNumberWeekday (d : Int) : Int := (d + 4).emod 7

/-- `t.Weekday()` of a timestamp, in the fixed UTC offset of the model. -/
def weekday (t : Int) : Int := dayNumberWeekday (t.fdiv 86400)

/-- Go struct `DayOff { Start, End time.Time }`.  The Go field `End` is named
`stop` here because `end` is a Lean keyword. -/
structure DayOff where
  start : Int
  stop : Int
deriving Repr, DecidableEq

/-- The inner day-off test of `calculateWorkingDays`:
`(current.Equal(off.Start) || current.After(off.Start)) &&
 (current.Equal(off.End) || current.Before(off.End))`,
i.e. `off.Start <= current <= off.End`, tried over the list with early exit. -/
def isDayOff (current : Int) (daysOff : List DayOff) : Bool :=
  daysOff.any fun off => decide (off.start ≤ current ∧ current ≤ off.stop)

/-- The body condition of the `calculateWorkingDays` loop: the day is counted
iff it is not Saturday, not Sunday and not a day off. -/
def countsAsWorkingDay (current : Int) (daysOff : List DayOff) : Bool :=
  decide (weekday current ≠ 6) && decide (weekday current ≠ 0) &&
    !(isDayOff current daysOff)

/-- The `for current.Before(end) || current.Equal(end)` loop of
`calculateWorkingDays`, with the number of iterations supplied as fuel;
each iteration advances `current` by 24 hours (86400 s). -/
def workingDaysLoop : Nat → Int → List DayOff → Nat
  | 0, _, _ => 0
  | fuel + 1, current, daysOff =>
      (if countsAsWorkingDay current daysOff then 1 else 0) +
        workingDaysLoop fuel (current + 86400) daysOff

/-- Number of iterations the Go loop performs: it runs for
`current = start, start + 86400, ...` while `current ≤ end`, hence
`⌊(end - start) / 86400⌋ + 1` times when `start ≤ end`, and not at all
otherwise. -/
def loopIterations (start stop : Int) : Nat :=
  if start ≤ stop then (stop - start).toNat / 86400 + 1 else 0

/-- `calculateWorkingDays(start, end, daysOff)` from main.go. -/
def calculateWorkingDays (start stop : Int) (daysOff : List DayOff) : Nat :=
  workingDaysLoop (loopIterations start stop) start daysOff

/-- Modelled from the spec's words (claims C1): "the number of calendar days
`d` in the inclusive range `[start, end]` such that `d` is not a Saturday or
Sunday and `d` does not lie within any exclusion interval's inclusive
`[start, end]` range".  Days are enumerated at calendar-day granularity: `d`
ranges over the day numbers of `start .. end`, and an exclusion covers the
calendar days of its two endpoints, inclusively. -/
def specDayLoop : Nat → Int → List DayOff → Nat
  | 0, _, _ => 0
  | fuel + 1, d, offs =>
      (if (decide (dayNumberWeekday d ≠ 6) && decide (dayNumberWeekday d ≠ 0) &&
            !(offs.any fun off =>
                decide (off.start.fdiv 86400 ≤ d ∧ d ≤ off.stop.fdiv 86400)))
        then 1 else 0) + specDayLoop fuel (d + 1) offs

/-- Modelled from the spec's words (claim C1): the calendar-day working-day
count over the inclusive day range of `[start, end]`. -/
def specCalendarWorkingDays (start stop : Int) (offs : List DayOff) : Nat :=
  if start.fdiv 86400 ≤ stop.fdiv 86400 then
    specDayLoop ((stop.fdiv 86400 - start.fdiv 86400).toNat + 1) (start.fdiv 86400) offs
  else 0

/-- Midnight-aligned day-off interval, used to state the aligned-input form of
claim C1. -/
def scaleDayOff (p : Int × Int) : DayOff := ⟨86400 * p.1, 86400 * p.2⟩

/-!  The `/sprints` handler: iteration scan, current-sprint detection and
window slicing (main.go lines 214-275). -/

/-- An upstream `work.TeamSettingsIteration`: `Name` is a string pointer and
the two dates live behind the optional `Attributes` struct, so all three are
modelled as options (absent `Attributes` is the same as both dates absent).
The `Path`/uuid field plays no role in any claim and is omitted. -/
structure Iteration where
  name : Option String
  startDate : Option Int
  finishDate : Option Int
deriving Repr, DecidableEq

/-- A `Sprint` value as built by the handler (uuid field omitted). -/
structure Sprint where
  name : String
  startDate : Int
  endDate : Int
  isCurrent : Bool
deriving Repr, DecidableEq

/-- The current-sprint test of the scan body:
`!sprint.StartDate.IsZero() && !sprint.EndDate.IsZero()` and then
`now.After(sprint.StartDate) && now.Before(sprint.EndDate)` — note that both
comparisons are strict. -/
def currentCheck (it : Iteration) (now : Int) : Bool :=
  let startDate := it.startDate.getD goZeroTime
  let endDate := it.finishDate.getD goZeroTime
  !(isZero startDate) && !(isZero endDate) &&
    decide (startDate < now) && decide (now < endDate)

/-- One iteration's conversion to a `Sprint`, for an iteration whose name was
present: copies the dates (Go zero value when absent) and sets `IsCurrent`. -/
def mkSprint (nm : String) (it : Iteration) (now : Int) : Sprint :=
  ⟨nm, it.startDate.getD goZeroTime, it.finishDate.getD goZeroTime,
    currentCheck it now⟩

/-- Whether an iteration would be marked current by the scan: it has a name
(unnamed iterations are skipped by `continue`) and passes `currentCheck`. -/
def iterQualifies (it : Iteration) (now : Int) : Bool :=
  it.name.isSome && currentCheck it now

/-- The scan loop `for i, iteration := range *iterations` of the `/sprints`
handler: `i` counts every element of the raw list (a `continue` on a missing
name does not stop `i` from advancing), named iterations are appended to
`allSprints`, and `currentSprintIndex` is overwritten with the raw index `i`
of every iteration that passes the current check (there is no `break`). -/
def scanGo (now : Int) :
    List Iteration → Nat → List Sprint → Int → List Sprint × Int
  | [], _, acc, idx => (acc, idx)
  | it :: rest, i, acc, idx =>
      match it.name with
      | none => scanGo now rest (i + 1) acc idx
      | some nm =>
          let s := mkSprint nm it now
          let idx' := if s.isCurrent then (i : Int) else idx
          scanGo now rest (i + 1) (acc ++ [s]) idx'

/-- The full scan, started with an empty `allSprints` and
`currentSprintIndex = -1`. -/
def scanIterations (iters : List Iteration) (now : Int) :
    List Sprint × Int :=
  scanGo now iters 0 [] (-1)

/-- Go slice expression `l[lo:hi]` on a slice of length `l.length`: defined
(yielding the elements at positions `lo ≤ k < hi`) when
`0 ≤ lo ≤ hi ≤ len`, and a runtime panic — modelled as `none` — otherwise. -/
def goSlice (l : List Sprint) (lo hi : Int) : Option (List Sprint) :=
  if 0 ≤ lo ∧ lo ≤ hi ∧ hi ≤ (l.length : Int) then
    some ((l.drop lo.toNat).take (hi - lo).toNat)
  else none

/-- The window computation of the `/sprints` handler (main.go lines 218-275):
scan, then if a current sprint was found slice
`allSprints[startIndex:endIndex]` with `startIndex = currentSprintIndex - 3`
clamped below at 0 and `endIndex = currentSprintIndex + 4` clamped above at
`len(allSprints)`; otherwise return the last 7 sprints (or all of them).
`none` models the Go runtime panic of an out-of-range slice. -/
def selectWindow (iters : List Iteration) (now : Int) :
    Option (List Sprint) :=
  if iters.length = 0 then some [] else
  let scanned := scanIterations iters now
  let allSprints := scanned.1
  let currentSprintIndex := scanned.2
  if 0 ≤ currentSprintIndex then
    let startIndex :=
      if currentSprintIndex - 3 < 0 then 0 else currentSprintIndex - 3
    let endIndex :=
      if (allSprints.length : Int) < currentSprintIndex + 4 then
        (allSprints.length : Int)
      else currentSprintIndex + 4
    goSlice allSprints startIndex endIndex
  else
    if 7 < allSprints.length then some (allSprints.drop (allSprints.length - 7))
    else some allSprints

/-- Modelled from the spec's words (claim C5): the window around the current
iteration's index `i` *in the name-filtered list*, `filtered[max(0, i-3) :
min(len, i+4)]`; with no current iteration, the last 7. -/
def specWindow (iters : List Iteration) (now : Int) :
    Option (List Sprint) :=
  let sprints := (iters.filter fun it => it.name.isSome).map
    fun it => mkSprint (it.name.getD "") it now
  match sprints.findIdx? (fun s => s.isCurrent) with
  | some i =>
      some ((sprints.drop (i - 3)).take (min (i + 4) sprints.length - (i - 3)))
  | none =>
      if 7 < sprints.length then some (sprints.drop (sprints.length - 7))
      else some sprints

/-- The sprint list a scan produces, as a pure function of the input:
named iterations mapped to sprints, unnamed ones dropped. -/
def sprintsOf (iters : List Iteration) (now : Int) : List Sprint :=
  iters.filterMap fun it => it.name.map fun nm => mkSprint nm it now

/-!  The `/developers` handler: per-developer capacity computation
(main.go lines 680-742).  `float64` is modelled with `ℚ`. -/

/-- One entry of `TeamMemberCapacity.Activities`. -/
structure Activity where
  capacityPerDay : ℚ
  name : String
deriving Repr, DecidableEq

/-- Go struct `TeamMemberCapacity`. -/
structure TeamMemberCapacity where
  activities : List Activity
  daysOff : List DayOff
deriving Repr, DecidableEq

/-- Go struct `Developer` (the unused `Email` field is omitted). -/
structure Developer where
  name : String
  tasks : Nat
  capacityPerDay : ℚ
  totalCapacity : ℚ
  daysOff : Nat
deriving Repr, DecidableEq

/-- The hard-coded default capacity the handler installs for every developer
of the task map: one activity of 8 hours/day named "Desenvolvimento" and an
empty days-off list. -/
def defaultCapacity : TeamMemberCapacity := ⟨[⟨8, "Desenvolvimento"⟩], []⟩

/-- The `devCapacities` map: the handler assigns `defaultCapacity` to every
developer name appearing in `devMap` (there is no external capacity source).
The roster is the developer→task-count map as an association list. -/
def buildDevCapacities (roster : List (String × Nat)) :
    List (String × TeamMemberCapacity) :=
  roster.map fun p => (p.1, defaultCapacity)

/-- Map lookup `capacity, exists := devCapacities[name]`. -/
def lookupCap (caps : List (String × TeamMemberCapacity)) (nm : String) :
    Option TeamMemberCapacity :=
  (caps.find? fun p => p.1 == nm).map fun p => p.2

/-- The sum `developer.CapacityPerDay += activity.CapacityPerDay` over the
activities, starting from the zero value. -/
def sumActivities (acts : List Activity) : ℚ :=
  acts.foldl (fun a act => a + act.capacityPerDay) 0

/-- The per-developer body of the `/developers` loop (main.go lines 707-730):
look the developer up in `devCapacities`; on a hit, sum the per-day
capacities, count working days against the developer's days off, record the
interval count as `DaysOff`, and set
`TotalCapacity = float64(workingDays) * CapacityPerDay`; on a miss, the
fields keep their zero values. -/
def computeDeveloper (sprintStart sprintEnd : Int)
    (caps : List (String × TeamMemberCapacity)) (nm : String) (tasks : Nat) :
    Developer :=
  match lookupCap caps nm with
  | some capacity =>
      let daily := sumActivities capacity.activities
      let wd := calculateWorkingDays sprintStart sprintEnd capacity.daysOff
      ⟨nm, tasks, daily, (wd : ℚ) * daily, capacity.daysOff.length⟩
  | none => ⟨nm, tasks, 0, 0, 0⟩

/-- Go struct `DevelopersResponse`. -/
structure DevelopersResponse where
  developers : List Developer
  sprintStart : Int
  sprintEnd : Int
  totalCapacity : ℚ
  totalDaysOff : Nat
  workingDays : Nat
deriving Repr, DecidableEq

/-- The response assembly of the `/developers` handler: every developer of
the task map is processed with `computeDeveloper` against the default
capacity map; `TotalCapacity` accumulates the developers' totals,
`TotalDaysOff` their interval counts, and `WorkingDays` is the sprint-wide
baseline with no exclusions.  (The code additionally sorts the developer
list by name; the ordering plays no role in any claim and is not modelled.) -/
def buildDevelopersResponse (sprintStart sprintEnd : Int)
    (roster : List (String × Nat)) : DevelopersResponse :=
  let caps := buildDevCapacities roster
  let devs := roster.map fun p => computeDeveloper sprintStart sprintEnd caps p.1 p.2
  ⟨devs, sprintStart, sprintEnd,
    devs.foldl (fun a d => a + d.totalCapacity) 0,
    devs.foldl (fun a d => a + d.daysOff) 0,
    calculateWorkingDays sprintStart sprintEnd []⟩

/-!  `parseDate` (main.go lines 120-150): Go `time.Parse` specialised to the
nine fixed layouts of the function plus the `time.RFC3339` fallback.  The
combinators below mirror the relevant pieces of Go's parse machinery:
`getnum` (one-or-two digit and exactly-two digit numeric fields), four-byte
year via `atoi`, literal bytes, case-insensitive long month names, the
"unformatted fractional second" special case after a seconds field, and the
`±hh:mm` numeric colon time zone. -/

def isDigitChar (c : Char) : Bool := decide ('0' ≤ c ∧ c ≤ '9')

def digitVal (c : Char) : Nat := c.toNat - '0'.toNat

/-- Go `getnum(s, fixed)`: a fixed field takes exactly two digits; a
non-fixed field takes two digits when available, else one. -/
def getnum : List Char → Bool → Option (Nat × List Char)
  | c1 :: c2 :: rest, fixed =>
      if isDigitChar c1 then
        if isDigitChar c2 then some (digitVal c1 * 10 + digitVal c2, rest)
        else if fixed then none else some (digitVal c1, c2 :: rest)
      else none
  | [c1], fixed =>
      if isDigitChar c1 then
        if fixed then none else some (digitVal c1, [])
      else none
  | [], _ => none

/-- Go `atoi`: optional sign, then a non-empty run of digits. -/
def atoiChars (s : List Char) : Option Int :=
  match s with
  | [] => none
  | c :: rest =>
      let signed : Bool × List Char :=
        if c = '-' then (true, rest)
        else if c = '+' then (false, rest) else (false, c :: rest)
      match signed with
      | (neg, ds) =>
          if ds.isEmpty then none
          else if ds.all isDigitChar then
            let n : Nat := ds.foldl (fun a d => a * 10 + digitVal d) 0
            some (if neg then -(n : Int) else (n : Int))
          else none

/-- The `2006` layout chunk (`stdLongYear`): four bytes fed to `atoi`. -/
def getYear4 (s : List Char) : Option (Int × List Char) :=
  if s.length < 4 then none
  else
    match atoiChars (s.take 4) with
    | some y => some (y, s.drop 4)
    | none => none

/-- A literal layout byte: must match exactly. -/
def lit (c : Char) (s : List Char) : Option (List Char) :=
  match s with
  | d :: rest => if d = c then some rest else none
  | [] => none

/-- Go's "fractional second not present in the layout" special case: after a
seconds field, a `.` or `,` followed by digits is consumed; more than nine
fractional digits are out of range. -/
def consumeFraction (s : List Char) : Option (List Char) :=
  match s with
  | c :: d :: rest =>
      if (c = '.' ∨ c = ',') ∧ isDigitChar d then
        if ((d :: rest).takeWhile isDigitChar).length ≤ 9 then
          some ((d :: rest).dropWhile isDigitChar)
        else none
      else some s
  | _ => some s

/-- Go byte case-folding used by `match` in name lookup: letters compare
case-insensitively. -/
def foldCase (c : Char) : Char :=
  if decide ('A' ≤ c ∧ c ≤ 'Z') then Char.ofNat (c.toNat + 32) else c

/-- Case-insensitive prefix match of a name against the value, returning the
rest of the value. -/
def matchCI : List Char → List Char → Option (List Char)
  | [], v => some v
  | _ :: _, [] => none
  | n :: ns, v :: vs => if foldCase v = foldCase n then matchCI ns vs else none

def longMonthNames : List (List Char) :=
  ["January".data, "February".data, "March".data, "April".data, "May".data,
   "June".data, "July".data, "August".data, "September".data, "October".data,
   "November".data, "December".data]

/-- Go `lookup(longMonthNames, value)`: the first name that is a
case-insensitive prefix of the value wins; months are numbered from 1. -/
def lookupMonthGo (idx : Nat) : List (List Char) → List Char →
    Option (Nat × List Char)
  | [], _ => none
  | n :: ns, v =>
      match matchCI n v with
      | some rest => some (idx, rest)
      | none => lookupMonthGo (idx + 1) ns v

def lookupMonth (s : List Char) : Option (Nat × List Char) :=
  lookupMonthGo 1 longMonthNames s

/-- The components a layout can fill in (missing ones keep Go's defaults:
hour, minute and second default to 0). -/
structure DateTimeParts where
  year : Int
  month : Nat
  day : Nat
  hour : Nat
  minute : Nat
  second : Nat
deriving Repr, DecidableEq

/-- Go `isLeap` (note Lean `%` on `Int` is `emod`; for divisibility tests it
agrees with Go's truncating `%`). -/
def isLeapYear (y : Int) : Bool :=
  y % 4 = 0 && (y % 100 ≠ 0 || y % 400 = 0)

/-- Go `daysIn(m, year)`. -/
def daysIn (m : Nat) (y : Int) : Nat :=
  if m = 2 then (if isLeapYear y then 29 else 28)
  else if m = 4 ∨ m = 6 ∨ m = 9 ∨ m = 11 then 30
  else 31

/-- The month and day range checks Go performs after the chunk loop. -/
def validMonthDay (p : DateTimeParts) : Bool :=
  decide (1 ≤ p.month) && decide (p.month ≤ 12) &&
    decide (1 ≤ p.day) && decide (p.day ≤ daysIn p.month p.year)

/-- Day number (days since 1970-01-01) of a proleptic-Gregorian civil date;
the standard era-based conversion used to model Go's `time.Date`. -/
def daysFromCivil (y : Int) (m : Nat) (d : Nat) : Int :=
  let y' := if m ≤ 2 then y - 1 else y
  let era := y'.fdiv 400
  let yoe := y' - era * 400
  let mp : Int := if m ≤ 2 then (m : Int) + 9 else (m : Int) - 3
  let doy := (153 * mp + 2).fdiv 5 + (d : Int) - 1
  let doe := yoe * 365 + yoe.fdiv 4 - yoe.fdiv 100 + doy
  era * 146097 + doe - 719468

/-- Unix-epoch seconds of the parsed wall-clock components (UTC). -/
def partsToEpoch (p : DateTimeParts) : Int :=
  daysFromCivil p.year p.month p.day * 86400 +
    (p.hour : Int) * 3600 + (p.minute : Int) * 60 + (p.second : Int)

/-- After all layout chunks: the value must be exhausted, the month/day
ranges must hold, and the instant is the wall clock minus the zone offset. -/
def finishParse (p : DateTimeParts) (rest : List Char) (offset : Int) :
    Option Int :=
  if rest.isEmpty && validMonthDay p then some (partsToEpoch p - offset)
  else none

/-- The shared `"2006-01-02T15:04:05"` front of the three ISO layouts and of
the RFC3339 fallback, including Go's inline hour/minute/second range checks
and the unformatted-fraction consumption after the seconds field. -/
def parseISODateTime (s : List Char) : Option (DateTimeParts × List Char) := do
  let (y, s) ← getYear4 s
  let s ← lit '-' s
  let (mo, s) ← getnum s true
  let s ← lit '-' s
  let (d, s) ← getnum s true
  let s ← lit 'T' s
  let (h, s) ← getnum s false
  if 24 ≤ h then none else do
  let s ← lit ':' s
  let (mi, s) ← getnum s true
  if 60 ≤ mi then none else do
  let s ← lit ':' s
  let (sec, s) ← getnum s true
  if 60 ≤ sec then none else do
  let s ← consumeFraction s
  pure (⟨y, mo, d, h, mi, sec⟩, s)

/-- The `-07:00` layout chunk (`stdNumColonTZ`): a sign, two digits, a colon
and two digits; returns the zone offset in seconds. -/
def parseTZOffset (s : List Char) : Option (Int × List Char) :=
  match s with
  | sign :: rest =>
      if sign = '+' ∨ sign = '-' then do
        let (hh, r) ← getnum rest true
        let r ← lit ':' r
        let (mm, r) ← getnum r true
        let off : Int := (hh : Int) * 3600 + (mm : Int) * 60
        pure (if sign = '-' then -off else off, r)
      else none
  | [] => none

/-- Layout `"2006-01-02T15:04:05Z"` (the final `Z` is a literal byte). -/
def parseLayoutISOZ (s : List Char) : Option Int := do
  let (p, rest) ← parseISODateTime s
  let rest ← lit 'Z' rest
  finishParse p rest 0

/-- Layout `"2006-01-02T15:04:05"`. -/
def parseLayoutISONoTZ (s : List Char) : Option Int := do
  let (p, rest) ← parseISODateTime s
  finishParse p rest 0

/-- Layout `"2006-01-02T15:04:05-07:00"`. -/
def parseLayoutISOOffset (s : List Char) : Option Int := do
  let (p, rest) ← parseISODateTime s
  let (off, rest) ← parseTZOffset rest
  finishParse p rest off

/-- Layout `"2006-01-02"`. -/
def parseLayoutDateOnly (s : List Char) : Option Int := do
  let (y, s) ← getYear4 s
  let s ← lit '-' s
  let (mo, s) ← getnum s true
  let s ← lit '-' s
  let (d, rest) ← getnum s true
  finishParse ⟨y, mo, d, 0, 0, 0⟩ rest 0

/-- Layout `"02/01/2006 15:04"` (day first, then month). -/
def parseLayoutBRDateTime (s : List Char) : Option Int := do
  let (d, s) ← getnum s true
  let s ← lit '/' s
  let (mo, s) ← getnum s true
  let s ← lit '/' s
  let (y, s) ← getYear4 s
  let s ← lit ' ' s
  let (h, s) ← getnum s false
  if 24 ≤ h then none else do
  let s ← lit ':' s
  let (mi, rest) ← getnum s true
  if 60 ≤ mi then none else
  finishParse ⟨y, mo, d, h, mi, 0⟩ rest 0

/-- Layout `"02/01/2006"` (day first, then month). -/
def parseLayoutBRDate (s : List Char) : Option Int := do
  let (d, s) ← getnum s true
  let s ← lit '/' s
  let (mo, s) ← getnum s true
  let s ← lit '/' s
  let (y, rest) ← getYear4 s
  finishParse ⟨y, mo, d, 0, 0, 0⟩ rest 0

/-- Layout `"1/2/2006"` (month first, then day, one or two digits each). -/
def parseLayoutShortDate (s : List Char) : Option Int := do
  let (mo, s) ← getnum s false
  let s ← lit '/' s
  let (d, s) ← getnum s false
  let s ← lit '/' s
  let (y, rest) ← getYear4 s
  finishParse ⟨y, mo, d, 0, 0, 0⟩ rest 0

/-- Layout `"January 2, 2006"`. -/
def parseLayoutLongForm (s : List Char) : Option Int := do
  let (mo, s) ← lookupMonth s
  let s ← lit ' ' s
  let (d, s) ← getnum s false
  let s ← lit ',' s
  let s ← lit ' ' s
  let (y, rest) ← getYear4 s
  finishParse ⟨y, mo, d, 0, 0, 0⟩ rest 0

/-- Layout `"2006/01/02"`. -/
def parseLayoutSlashDate (s : List Char) : Option Int := do
  let (y, s) ← getYear4 s
  let s ← lit '/' s
  let (mo, s) ← getnum s true
  let s ← lit '/' s
  let (d, rest) ← getnum s true
  finishParse ⟨y, mo, d, 0, 0, 0⟩ rest 0

/-- The `layouts` slice of `parseDate`, in source order. -/
def layoutParsers : List (List Char → Option Int) :=
  [parseLayoutISOZ, parseLayoutISONoTZ, parseLayoutISOOffset,
   parseLayoutDateOnly, parseLayoutBRDateTime, parseLayoutBRDate,
   parseLayoutShortDate, parseLayoutLongForm, parseLayoutSlashDate]

/-- The `for _, layout := range layouts` loop: return on the first success. -/
def firstSome : List (List Char → Option Int) → List Char → Option Int
  | [], _ => none
  | p :: ps, s =>
      match p s with
      | some t => some t
      | none => firstSome ps s

/-- The `time.Parse(time.RFC3339, dateStr)` fallback: layout
`"2006-01-02T15:04:05Z07:00"`, whose `Z07:00` chunk accepts either a literal
`Z` or a `±hh:mm` offset.  (Go's strict RFC 3339 fast path only ever accepts
strings the general parse also accepts, so the general parse is the
acceptance set.) -/
def parseRFC3339Fallback (s : List Char) : Option Int := do
  let (p, rest) ← parseISODateTime s
  match rest with
  | 'Z' :: rest2 => finishParse p rest2 0
  | _ => do
      let (off, rest2) ← parseTZOffset rest
      finishParse p rest2 off

/-- The error message of `parseDate` ("formato de data não reconhecido"). -/
def unrecognizedMsg (s : String) : String :=
  "formato de data não reconhecido: " ++ s

/-- `parseDate` from main.go: try the nine layouts in order, then the
RFC 3339 fallback, then fail. -/
def parseDate (s : String) : Except String Int :=
  match firstSome layoutParsers s.data with
  | some t => Except.ok t
  | none =>
      match parseRFC3339Fallback s.data with
      | some t => Except.ok t
      | none => Except.error (unrecognizedMsg s)

/-!  ## Theorems -/

/-- Pointwise-equal predicates give equal `List.any`. -/
theorem any_ext {α : Type} (l : List α) (f g : α → Bool) (h : ∀ a, f a = g a) :
    l.any f = l.any g := by
  induction l with
  | nil => rfl
  | cons x xs ih => simp [List.any_cons, h x, ih]

/-- `List.any` over a mapped list (general version, for maps that change the
element type). -/
theorem any_map_gen {α β : Type} (l : List α) (f : α → β) (p : β → Bool) :
    (l.map f).any p = l.any fun a => p (f a) := by
  induction l with
  | nil => rfl
  | cons x xs ih => simp [List.any_cons, ih]

/-- Appending one more exclusion interval can only turn working days into
days off, never the converse. -/
theorem countsAsWorkingDay_append (current : Int) (offs : List DayOff)
    (x : DayOff) (h : countsAsWorkingDay current (offs ++ [x]) = true) :
    countsAsWorkingDay current offs = true := by
  simp only [countsAsWorkingDay, isDayOff, List.any_append, Bool.and_eq_true,
    Bool.not_eq_true', Bool.or_eq_false_iff] at h ⊢
  exact ⟨h.1, h.2.1⟩

/-- Loop form of the exclusion monotonicity. -/
theorem workingDaysLoop_append_le (x : DayOff) :
    ∀ (fuel : Nat) (current : Int) (offs : List DayOff),
      workingDaysLoop fuel current (offs ++ [x]) ≤ workingDaysLoop fuel current offs
  | 0, _, _ => Nat.le_refl _
  | fuel + 1, current, offs => by
      simp only [workingDaysLoop]
      have h1 : (if countsAsWorkingDay current (offs ++ [x]) then 1 else 0) ≤
          (if countsAsWorkingDay current offs then 1 else 0) := by
        by_cases h : countsAsWorkingDay current (offs ++ [x]) = true
        · rw [if_pos h, if_pos (countsAsWorkingDay_append current offs x h)]
        · rw [if_neg h]; exact Nat.zero_le _
      exact Nat.add_le_add h1 (workingDaysLoop_append_le x fuel (current + 86400) offs)

/-- Claim C9: for fixed start and end and any exclusion list, appending one
more exclusion interval never increases `calculateWorkingDays`. -/
theorem calculateWorkingDays_antitone_append (start stop : Int)
    (offs : List DayOff) (x : DayOff) :
    calculateWorkingDays start stop (offs ++ [x]) ≤
      calculateWorkingDays start stop offs :=
  workingDaysLoop_append_le x (loopIterations start stop) start offs

/-- On a midnight-aligned timestamp the Go weekday is the day-number weekday. -/
theorem weekday_aligned (d : Int) : weekday (86400 * d) = dayNumberWeekday d := by
  unfold weekday
  rw [Int.mul_fdiv_cancel_left _ (by norm_num)]

/-- On midnight-aligned inputs the loop's working-day test agrees with the
spec's calendar-day test. -/
theorem indicator_aligned (d : Int) (offs : List (Int × Int)) :
    countsAsWorkingDay (86400 * d) (offs.map scaleDayOff) =
      (decide (dayNumberWeekday d ≠ 6) && decide (dayNumberWeekday d ≠ 0) &&
        !((offs.map scaleDayOff).any fun off =>
            decide (off.start.fdiv 86400 ≤ d ∧ d ≤ off.stop.fdiv 86400))) := by
  have hany : isDayOff (86400 * d) (offs.map scaleDayOff) =
      (offs.map scaleDayOff).any (fun off =>
        decide (off.start.fdiv 86400 ≤ d ∧ d ≤ off.stop.fdiv 86400)) := by
    unfold isDayOff
    rw [any_map_gen, any_map_gen]
    apply any_ext
    intro p
    apply decide_eq_decide.mpr
    simp only [scaleDayOff]
    rw [Int.mul_fdiv_cancel_left _ (by norm_num : (86400:Int) ≠ 0),
      Int.mul_fdiv_cancel_left _ (by norm_num : (86400:Int) ≠ 0)]
    omega
  unfold countsAsWorkingDay
  rw [weekday_aligned, hany]

/-- Loop form of the aligned-input equality of claim C1. -/
theorem workingDaysLoop_aligned (offs : List (Int × Int)) :
    ∀ (fuel : Nat) (d : Int),
      workingDaysLoop fuel (86400 * d) (offs.map scaleDayOff) =
        specDayLoop fuel d (offs.map scaleDayOff)
  | 0, _ => rfl
  | fuel + 1, d => by
      simp only [workingDaysLoop, specDayLoop]
      rw [indicator_aligned]
      have h86 : (86400 : Int) * d + 86400 = 86400 * (d + 1) := by ring
      rw [h86, workingDaysLoop_aligned offs fuel (d + 1)]

/-- On midnight-aligned inputs the Go loop runs once per calendar day. -/
theorem loopIterations_aligned (s e : Int) :
    loopIterations (86400 * s) (86400 * e) =
      if s ≤ e then (e - s).toNat + 1 else 0 := by
  unfold loopIterations
  by_cases h : s ≤ e
  · have h2 : (86400 : Int) * s ≤ 86400 * e := by omega
    rw [if_pos h2, if_pos h]
    congr 1
    have h1 : ((86400 : Int) * e - 86400 * s).toNat = 86400 * (e - s).toNat := by
      omega
    rw [h1, Nat.mul_div_cancel_left _ (by norm_num)]
  · have h2 : ¬((86400 : Int) * s ≤ 86400 * e) := by omega
    rw [if_neg h2, if_neg h]

/-- Claim C1 (amended): the claim's calendar-day description is correct for
midnight-aligned inputs — when `start`, `end` and every exclusion bound are
whole days (multiples of 86400 s), `calculateWorkingDays` equals the number
of calendar days in the inclusive range that are neither weekend days nor
covered by an exclusion interval (hence `0` when `start > end`, and the pure
weekday count for an empty exclusion list).  For timestamps carrying a time
of day the code instead counts 24-hour steps from `start`
(see the counterexample). -/
theorem calculateWorkingDays_aligned_eq_calendar (s e : Int)
    (offs : List (Int × Int)) :
    calculateWorkingDays (86400 * s) (86400 * e) (offs.map scaleDayOff) =
      specCalendarWorkingDays (86400 * s) (86400 * e) (offs.map scaleDayOff) := by
  unfold calculateWorkingDays specCalendarWorkingDays
  rw [Int.mul_fdiv_cancel_left _ (by norm_num : (86400:Int) ≠ 0),
    Int.mul_fdiv_cancel_left _ (by norm_num : (86400:Int) ≠ 0),
    loopIterations_aligned]
  by_cases h : s ≤ e
  · rw [if_pos h, if_pos h, workingDaysLoop_aligned]
  · rw [if_neg h, if_neg h]
    rfl

/-- Claim C1 counterexample: `start` = Monday 1970-01-05 23:00 UTC and
`end` = Tuesday 1970-01-06 01:00 UTC.  The inclusive calendar-day range
holds two weekdays (Monday and Tuesday), but the code's 24-hour stepping
from 23:00 visits only one timestamp, so `calculateWorkingDays` returns 1,
not the claimed calendar-day count 2. -/
theorem calculateWorkingDays_misaligned_cex :
    calculateWorkingDays 428400 435600 [] = 1 ∧
      specCalendarWorkingDays 428400 435600 [] = 2 ∧
      calculateWorkingDays 428400 435600 [] ≠
        specCalendarWorkingDays 428400 435600 [] :=
  ⟨by decide, by decide, by decide⟩

/-- Claim C2 (amended): the capacities collapse to zero only through the
`start > end` path — when the *end* date is absent (the Go zero value) while
the start date is later than it, `calculateWorkingDays` returns 0 and a
developer's total capacity is 0.  An absent *start* date does not trigger
this: the code has no zero-date guard (see the counterexample, where both
dates are zero and the result is 1, not 0). -/
theorem calculateWorkingDays_zero_end (start : Int) (offs : List DayOff)
    (caps : List (String × TeamMemberCapacity)) (nm : String) (tasks : Nat)
    (h : goZeroTime < start) :
    calculateWorkingDays start goZeroTime offs = 0 ∧
      (computeDeveloper start goZeroTime caps nm tasks).totalCapacity = 0 := by
  have hz : ∀ offs2 : List DayOff, calculateWorkingDays start goZeroTime offs2 = 0 := by
    intro offs2
    unfold calculateWorkingDays loopIterations
    rw [if_neg (by unfold goZeroTime at h ⊢; omega)]
    rfl
  refine ⟨hz offs, ?_⟩
  cases hc : lookupCap caps nm with
  | none => simp [computeDeveloper, hc]
  | some c => simp [computeDeveloper, hc, hz c.daysOff]

/-- Witness for claim C2's amended theorem at `start` = the Unix epoch. -/
theorem calculateWorkingDays_zero_end_witness :
    calculateWorkingDays 0 goZeroTime [] = 0 ∧
      (computeDeveloper 0 goZeroTime [] "alice" 1).totalCapacity = 0 :=
  calculateWorkingDays_zero_end 0 [] [] "alice" 1 (by decide)

/-- Claim C2 counterexample: with *both* sprint dates absent (the Go zero
time, a Monday), the loop still runs once and counts one working day, so a
developer's total capacity is 8 hours, not 0 as claimed. -/
theorem zeroRange_capacity_cex :
    calculateWorkingDays goZeroTime goZeroTime [] = 1 ∧
      (buildDevelopersResponse goZeroTime goZeroTime [("alice", 1)]).totalCapacity = 8 ∧
      (buildDevelopersResponse goZeroTime goZeroTime [("alice", 1)]).totalCapacity ≠ 0 := by
  have h1 : calculateWorkingDays goZeroTime goZeroTime [] = 1 := by decide
  have h8 : (buildDevelopersResponse goZeroTime goZeroTime [("alice", 1)]).totalCapacity = 8 := by
    simp [buildDevelopersResponse, computeDeveloper, buildDevCapacities,
      lookupCap, defaultCapacity, sumActivities, List.find?, h1]
  refine ⟨h1, h8, by rw [h8]; norm_num⟩

/-- Claim C3 (amended): an iteration is marked current iff both its dates are
present (non-zero) and `start < now < end` — the start bound is *strict*
(`now.After(start)`), not inclusive as claimed. -/
theorem mkSprint_isCurrent_iff (nm : String) (it : Iteration) (now : Int) :
    (mkSprint nm it now).isCurrent = true ↔
      (it.startDate.getD goZeroTime ≠ goZeroTime ∧
        it.finishDate.getD goZeroTime ≠ goZeroTime ∧
        it.startDate.getD goZeroTime < now ∧
        now < it.finishDate.getD goZeroTime) := by
  simp [mkSprint, currentCheck, isZero, and_assoc]

/-- Claim C3 counterexample: an iteration whose dates are present and with
`now` equal to its start date satisfies the claim's condition
(`start ≤ now < end`, dates non-zero) yet is not marked current, because the
code requires `now.After(start)` strictly. -/
theorem current_at_start_cex :
    (mkSprint "s" ⟨some "s", some 0, some 86400⟩ 0).isCurrent = false ∧
      ((0 : Int) ≠ goZeroTime ∧ (86400 : Int) ≠ goZeroTime ∧
        (0 : Int) ≤ 0 ∧ (0 : Int) < 86400) :=
  ⟨by decide, by decide⟩

/-- `sprintsOf` on a named head. -/
theorem sprintsOf_cons_some {it : Iteration} {nm : String}
    (rest : List Iteration) (now : Int) (h : it.name = some nm) :
    sprintsOf (it :: rest) now = mkSprint nm it now :: sprintsOf rest now := by
  simp [sprintsOf, List.filterMap_cons, h]

/-- `sprintsOf` on an unnamed head. -/
theorem sprintsOf_cons_none {it : Iteration}
    (rest : List Iteration) (now : Int) (h : it.name = none) :
    sprintsOf (it :: rest) now = sprintsOf rest now := by
  simp [sprintsOf, List.filterMap_cons, h]

/-- The sprint list the scan accumulates is `acc` followed by the converted
named iterations. -/
theorem scanGo_fst (now : Int) :
    ∀ (l : List Iteration) (i : Nat) (acc : List Sprint) (idx : Int),
      (scanGo now l i acc idx).1 = acc ++ sprintsOf l now
  | [], _, acc, _ => by simp [scanGo, sprintsOf]
  | it :: rest, i, acc, idx => by
      cases hn : it.name with
      | none =>
          rw [sprintsOf_cons_none rest now hn]
          simp only [scanGo, hn]
          exact scanGo_fst now rest (i + 1) acc idx
      | some nm =>
          rw [sprintsOf_cons_some rest now hn]
          simp only [scanGo, hn]
          rw [scanGo_fst now rest (i + 1) _ _]
          simp

/-- Every qualifying iteration produces a sprint marked current, and no
other sprint is marked current. -/
theorem sprintsOf_countP_current (now : Int) :
    ∀ l : List Iteration,
      (sprintsOf l now).countP (fun s => s.isCurrent) =
        l.countP (fun it => iterQualifies it now)
  | [] => rfl
  | it :: rest => by
      cases hn : it.name with
      | none =>
          rw [sprintsOf_cons_none rest now hn, List.countP_cons,
            sprintsOf_countP_current now rest]
          have hnq : iterQualifies it now = false := by
            simp [iterQualifies, hn]
          rw [hnq]
          simp
      | some nm =>
          rw [sprintsOf_cons_some rest now hn, List.countP_cons,
            List.countP_cons, sprintsOf_countP_current now rest]
          have hql : iterQualifies it now = currentCheck it now := by
            simp [iterQualifies, hn]
          have hcur : (mkSprint nm it now).isCurrent = currentCheck it now := rfl
          rw [hql, hcur]

/-- If nothing in the remaining list qualifies, the scan keeps the incoming
`currentSprintIndex`. -/
theorem scanGo_idx_none (now : Int) :
    ∀ (l : List Iteration) (i : Nat) (acc : List Sprint) (idx : Int),
      l.all (fun it => !(iterQualifies it now)) = true →
      (scanGo now l i acc idx).2 = idx
  | [], _, _, _, _ => rfl
  | it :: rest, i, acc, idx, h => by
      rw [List.all_cons, Bool.and_eq_true] at h
      cases hn : it.name with
      | none =>
          simp only [scanGo, hn]
          exact scanGo_idx_none now rest _ _ _ h.2
      | some nm =>
          have hc : (mkSprint nm it now).isCurrent = false := by
            have h1 := h.1
            rw [iterQualifies, hn] at h1
            simp only [Option.isSome_some, Bool.true_and, Bool.not_eq_true'] at h1
            simp [mkSprint, h1]
          simp only [scanGo, hn, hc, Bool.false_eq_true, if_false]
          exact scanGo_idx_none now rest _ _ _ h.2

/-- If position `j` holds a qualifying iteration and nothing after it
qualifies, the scan ends with `currentSprintIndex = i + j`. -/
theorem scanGo_idx_last (now : Int) :
    ∀ (l : List Iteration) (j : Nat) (itj : Iteration) (i : Nat)
      (acc : List Sprint) (idx : Int),
      l.get? j = some itj →
      iterQualifies itj now = true →
      (l.drop (j + 1)).all (fun it => !(iterQualifies it now)) = true →
      (scanGo now l i acc idx).2 = ((i + j : Nat) : Int)
  | [], j, itj, i, acc, idx, hget, _, _ => by simp at hget
  | it :: rest, 0, itj, i, acc, idx, hget, hq, hlast => by
      have heq : it = itj := by
        rw [List.get?_cons_zero] at hget
        exact Option.some_inj.mp hget
      subst heq
      rw [iterQualifies, Bool.and_eq_true] at hq
      obtain ⟨nm, hn⟩ := Option.isSome_iff_exists.mp hq.1
      have hc : (mkSprint nm it now).isCurrent = true := hq.2
      simp only [scanGo, hn, hc, if_true]
      rw [List.drop_succ_cons, List.drop_zero] at hlast
      rw [scanGo_idx_none now rest _ _ _ hlast]
      simp
  | it :: rest, j + 1, itj, i, acc, idx, hget, hq, hlast => by
      rw [List.get?_cons_succ] at hget
      rw [List.drop_succ_cons] at hlast
      have ih : ∀ (acc2 : List Sprint) (idx2 : Int),
          (scanGo now rest (i + 1) acc2 idx2).2 = (((i + 1) + j : Nat) : Int) :=
        fun acc2 idx2 =>
          scanGo_idx_last now rest j itj (i + 1) acc2 idx2 hget hq hlast
      cases hn : it.name with
      | none =>
          simp only [scanGo, hn]
          rw [ih acc idx]
          omega
      | some nm =>
          simp only [scanGo, hn]
          rw [ih _ _]
          omega

/-- Claim C4 (amended): when a qualifying (current) iteration exists, *every*
qualifying iteration of the input is marked current in the output (the scan
has no break, so "at most one" fails), and the window-driving
`currentSprintIndex` is the raw input index of the *last* qualifying
iteration, not the first. -/
theorem scan_marks_all_and_last_wins (iters : List Iteration) (now : Int)
    (j : Nat) (itj : Iteration)
    (hget : iters.get? j = some itj)
    (hq : iterQualifies itj now = true)
    (hlast : (iters.drop (j + 1)).all (fun it => !(iterQualifies it now)) = true) :
    (scanIterations iters now).1.countP (fun s => s.isCurrent) =
      iters.countP (fun it => iterQualifies it now) ∧
    (scanIterations iters now).2 = (j : Int) := by
  constructor
  · rw [scanIterations, scanGo_fst, List.nil_append, sprintsOf_countP_current]
  · have h := scanGo_idx_last now iters j itj 0 [] (-1) hget hq hlast
    simpa using h

/-- Witness for claim C4's amended theorem: two fully-overlapping dated
iterations; both get marked, the second one's index wins. -/
theorem scan_marks_all_and_last_wins_witness :
    (scanIterations ([⟨some "A", some 0, some 200⟩,
        ⟨some "B", some 0, some 200⟩] : List Iteration) 100).1.countP
        (fun s => s.isCurrent) =
      ([⟨some "A", some 0, some 200⟩,
        ⟨some "B", some 0, some 200⟩] : List Iteration).countP
        (fun it => iterQualifies it 100) ∧
    (scanIterations ([⟨some "A", some 0, some 200⟩,
        ⟨some "B", some 0, some 200⟩] : List Iteration) 100).2 = (1 : Int) :=
  scan_marks_all_and_last_wins _ 100 1 ⟨some "B", some 0, some 200⟩
    (by decide) (by decide) (by decide)

/-- Claim C4 counterexample: with two overlapping iterations both containing
`now`, the scan marks *two* sprints current (the claim allows at most one)
and records index 1 — the last qualifying iteration — as current, not the
first (index 0). -/
theorem scan_overlap_cex :
    (scanIterations ([⟨some "A", some 0, some 200⟩,
        ⟨some "B", some 0, some 200⟩] : List Iteration) 100).1.countP
        (fun s => s.isCurrent) = 2 ∧
      ¬((scanIterations ([⟨some "A", some 0, some 200⟩,
          ⟨some "B", some 0, some 200⟩] : List Iteration) 100).1.countP
          (fun s => s.isCurrent) ≤ 1) ∧
      (scanIterations ([⟨some "A", some 0, some 200⟩,
        ⟨some "B", some 0, some 200⟩] : List Iteration) 100).2 = 1 ∧
      (scanIterations ([⟨some "A", some 0, some 200⟩,
        ⟨some "B", some 0, some 200⟩] : List Iteration) 100).2 ≠ 0 :=
  ⟨by decide, by decide, by decide, by decide⟩

/-- When every iteration has a name, the scan's sprint list is a plain map
over the input. -/
theorem sprintsOf_all_named (now : Int) :
    ∀ l : List Iteration, l.all (fun it => it.name.isSome) = true →
      sprintsOf l now = l.map fun it => mkSprint (it.name.getD "") it now
  | [], _ => rfl
  | it :: rest, h => by
      rw [List.all_cons, Bool.and_eq_true] at h
      obtain ⟨nm, hn⟩ := Option.isSome_iff_exists.mp h.1
      rw [sprintsOf_cons_some rest now hn, List.map_cons,
        sprintsOf_all_named now rest h.2, hn]
      rfl

/-- Any final `currentSprintIndex` other than the incoming one is the raw
index of some qualifying iteration. -/
theorem scanGo_idx_mem (now : Int) :
    ∀ (l : List Iteration) (i : Nat) (acc : List Sprint) (idx : Int),
      (scanGo now l i acc idx).2 = idx ∨
        ∃ k itk, l.get? k = some itk ∧ iterQualifies itk now = true ∧
          (scanGo now l i acc idx).2 = ((i + k : Nat) : Int)
  | [], _, _, _ => Or.inl rfl
  | it :: rest, i, acc, idx => by
      cases hn : it.name with
      | none =>
          simp only [scanGo, hn]
          rcases scanGo_idx_mem now rest (i + 1) acc idx with h | ⟨k, itk, h1, h2, h3⟩
          · exact Or.inl h
          · refine Or.inr ⟨k + 1, itk, ?_, h2, ?_⟩
            · rw [List.get?_cons_succ]; exact h1
            · rw [h3]; congr 1; omega
      | some nm =>
          simp only [scanGo, hn]
          rcases scanGo_idx_mem now rest (i + 1) (acc ++ [mkSprint nm it now])
              (if (mkSprint nm it now).isCurrent = true then (i : Int) else idx)
            with h | ⟨k, itk, h1, h2, h3⟩
          · by_cases hc : (mkSprint nm it now).isCurrent = true
            · rw [if_pos hc] at h ⊢
              refine Or.inr ⟨0, it, List.get?_cons_zero, ?_, by rw [h]; omega⟩
              rw [iterQualifies, hn]
              simp only [Option.isSome_some, Bool.true_and]
              exact hc
            · rw [if_neg hc] at h ⊢
              exact Or.inl h
          · refine Or.inr ⟨k + 1, itk, ?_, h2, ?_⟩
            · rw [List.get?_cons_succ]; exact h1
            · rw [h3]; congr 1; omega

/-- A non-negative final `currentSprintIndex` points at a qualifying
iteration of the raw list. -/
theorem scan_idx_qualifies (iters : List Iteration) (now : Int) (j : Nat)
    (h : (scanIterations iters now).2 = (j : Int)) :
    ∃ itj, iters.get? j = some itj ∧ iterQualifies itj now = true := by
  rcases scanGo_idx_mem now iters 0 [] (-1) with h0 | ⟨k, itk, h1, h2, h3⟩
  · rw [scanIterations] at h
    rw [h] at h0
    omega
  · rw [scanIterations] at h
    rw [h] at h3
    have hk : j = k := by omega
    subst hk
    exact ⟨itk, h1, h2⟩

/-- Element of a drop-take window, in terms of the base list. -/
theorem get?_drop_take {α : Type} (l : List α) (lo cnt k : Nat) (h : k < cnt) :
    ((l.drop lo).take cnt).get? k = l.get? (lo + k) := by
  rw [List.get?_take h, List.get?_drop]

/-- Claim C5 (amended): the slice is taken around the *raw* input index of
the (last) current iteration, applied to the name-filtered sprint list.
When every iteration has a name the raw index coincides with the filtered
index `j`, and the window is exactly
`allSprints[max(0, j-3) : min(len, j+4)]` (truncated `Nat` subtraction is
the lower clamp) and contains a sprint marked current.  With unnamed
iterations before the current one, the two indices differ and the claimed
window formula fails (see the counterexample). -/
theorem selectWindow_all_named (iters : List Iteration) (now : Int) (j : Nat)
    (hnamed : iters.all (fun it => it.name.isSome) = true)
    (hidx : (scanIterations iters now).2 = (j : Int))
    (hj : j < iters.length) :
    selectWindow iters now =
      some ((((scanIterations iters now).1).drop (j - 3)).take
        (min (j + 4) (scanIterations iters now).1.length - (j - 3))) ∧
    ((((scanIterations iters now).1).drop (j - 3)).take
        (min (j + 4) (scanIterations iters now).1.length - (j - 3))).any
      (fun s => s.isCurrent) = true := by
  have hfst : (scanIterations iters now).1 =
      iters.map fun it => mkSprint (it.name.getD "") it now := by
    rw [scanIterations, scanGo_fst, List.nil_append, sprintsOf_all_named now iters hnamed]
  have hlen : (scanIterations iters now).1.length = iters.length := by
    rw [hfst, List.length_map]
  obtain ⟨itj, hgetj, hqj⟩ := scan_idx_qualifies iters now j hidx
  have hcur : ((scanIterations iters now).1).get? j =
      some (mkSprint (itj.name.getD "") itj now) := by
    rw [hfst, List.get?_map, hgetj, Option.map_some']
  have hcurT : (mkSprint (itj.name.getD "") itj now).isCurrent = true := by
    rw [iterQualifies, Bool.and_eq_true] at hqj
    exact hqj.2
  constructor
  · have hne : ¬(iters.length = 0) := by omega
    simp only [selectWindow]
    rw [if_neg hne]
    rw [hidx]
    rw [if_pos (by omega : (0 : Int) ≤ (j : Int))]
    rw [goSlice]
    rw [hlen]
    have hcond : (0 : Int) ≤ (if (j : Int) - 3 < 0 then 0 else (j : Int) - 3) ∧
        (if (j : Int) - 3 < 0 then 0 else (j : Int) - 3) ≤
          (if (iters.length : Int) < (j : Int) + 4 then (iters.length : Int)
            else (j : Int) + 4) ∧
        (if (iters.length : Int) < (j : Int) + 4 then (iters.length : Int)
          else (j : Int) + 4) ≤ (iters.length : Int) := by
      refine ⟨?_, ?_, ?_⟩ <;> split <;> try split
      all_goals omega
    rw [if_pos hcond]
    have hlo : (if (j : Int) - 3 < 0 then 0 else (j : Int) - 3).toNat = j - 3 := by
      split <;> omega
    have hhi : ((if (iters.length : Int) < (j : Int) + 4 then (iters.length : Int)
          else (j : Int) + 4) -
        (if (j : Int) - 3 < 0 then 0 else (j : Int) - 3)).toNat =
        min (j + 4) iters.length - (j - 3) := by
      split <;> split <;> omega
    rw [hlo, hhi]
  · have hmemwin : ((((scanIterations iters now).1).drop (j - 3)).take
        (min (j + 4) (scanIterations iters now).1.length - (j - 3))).get?
          (j - (j - 3)) = some (mkSprint (itj.name.getD "") itj now) := by
      rw [get?_drop_take _ _ _ _ (by rw [hlen]; omega)]
      rw [show (j - 3) + (j - (j - 3)) = j by omega]
      exact hcur
    rw [List.any_eq_true]
    exact ⟨mkSprint (itj.name.getD "") itj now, List.get?_mem hmemwin, hcurT⟩

/-- Witness for claim C5's amended theorem: five named iterations with the
third one current. -/
theorem selectWindow_all_named_witness :
    selectWindow ([⟨some "A", none, none⟩, ⟨some "B", none, none⟩,
        ⟨some "C", some 0, some 200⟩, ⟨some "D", none, none⟩,
        ⟨some "E", none, none⟩] : List Iteration) 100 =
      some ((((scanIterations ([⟨some "A", none, none⟩, ⟨some "B", none, none⟩,
          ⟨some "C", some 0, some 200⟩, ⟨some "D", none, none⟩,
          ⟨some "E", none, none⟩] : List Iteration) 100).1).drop (2 - 3)).take
        (min (2 + 4) (scanIterations ([⟨some "A", none, none⟩,
          ⟨some "B", none, none⟩, ⟨some "C", some 0, some 200⟩,
          ⟨some "D", none, none⟩,
          ⟨some "E", none, none⟩] : List Iteration) 100).1.length - (2 - 3))) ∧
    ((((scanIterations ([⟨some "A", none, none⟩, ⟨some "B", none, none⟩,
        ⟨some "C", some 0, some 200⟩, ⟨some "D", none, none⟩,
        ⟨some "E", none, none⟩] : List Iteration) 100).1).drop (2 - 3)).take
        (min (2 + 4) (scanIterations ([⟨some "A", none, none⟩,
          ⟨some "B", none, none⟩, ⟨some "C", some 0, some 200⟩,
          ⟨some "D", none, none⟩,
          ⟨some "E", none, none⟩] : List Iteration) 100).1.length - (2 - 3))).any
      (fun s => s.isCurrent) = true :=
  selectWindow_all_named _ 100 2 (by decide) (by decide) (by decide)

/-- Claim C5 counterexample: one unnamed iteration precedes the current one.
The claim's window (filtered index 0, slice `[0:4]`, four sprints) differs
from the code's window (raw index 1, slice `[0:5]`, five sprints). -/
theorem selectWindow_unnamed_shift_cex :
    selectWindow ([⟨none, none, none⟩, ⟨some "A", some 0, some 200⟩,
        ⟨some "B", none, none⟩, ⟨some "C", none, none⟩,
        ⟨some "D", none, none⟩, ⟨some "E", none, none⟩] : List Iteration) 100 ≠
      specWindow ([⟨none, none, none⟩, ⟨some "A", some 0, some 200⟩,
        ⟨some "B", none, none⟩, ⟨some "C", none, none⟩,
        ⟨some "D", none, none⟩, ⟨some "E", none, none⟩] : List Iteration) 100 ∧
    (selectWindow ([⟨none, none, none⟩, ⟨some "A", some 0, some 200⟩,
        ⟨some "B", none, none⟩, ⟨some "C", none, none⟩,
        ⟨some "D", none, none⟩, ⟨some "E", none, none⟩] : List Iteration)
        100).map List.length = some 5 ∧
    (specWindow ([⟨none, none, none⟩, ⟨some "A", some 0, some 200⟩,
        ⟨some "B", none, none⟩, ⟨some "C", none, none⟩,
        ⟨some "D", none, none⟩, ⟨some "E", none, none⟩] : List Iteration)
        100).map List.length = some 4 :=
  ⟨by decide, by decide, by decide⟩

/-- Claim C10 (code bug): five unnamed iterations followed by one named,
current iteration.  The scan stores the raw index 5 while the name-filtered
sprint list has length 1, so the handler computes the slice
`allSprints[2:1]` — `startIndex > endIndex` — and the Go slice expression
panics; the model returns `none`. -/
theorem selectWindow_panic_cex :
    selectWindow ([⟨none, none, none⟩, ⟨none, none, none⟩, ⟨none, none, none⟩,
        ⟨none, none, none⟩, ⟨none, none, none⟩,
        ⟨some "A", some 0, some 200⟩] : List Iteration) 100 = none := by
  decide

/-- Looking a rostered developer up in the default capacity map always finds
the default capacity. -/
theorem lookupCap_build :
    ∀ (roster : List (String × Nat)) (nm : String),
      nm ∈ roster.map Prod.fst →
      lookupCap (buildDevCapacities roster) nm = some defaultCapacity
  | [], nm, h => by simp at h
  | p :: rest, nm, h => by
      by_cases hp : p.1 == nm
      · simp [lookupCap, buildDevCapacities, List.find?, hp]
      · have h2 : nm ∈ rest.map Prod.fst := by
          rw [List.map_cons, List.mem_cons] at h
          rcases h with h | h
          · exact absurd (beq_iff_eq.mpr h.symm) hp
          · exact h
        have ih := lookupCap_build rest nm h2
        rw [lookupCap, buildDevCapacities] at ih ⊢
        rw [List.map_cons, List.find?]
        simp only [hp]
        exact ih

/-- Claim C6: a developer present in the task map but absent from any
external capacity source gets the default single 8-hour activity with no
exclusions (never a failure); `capacityPerDay` is the sum of the activities'
per-day allocations; and `totalCapacity` is
`calculateWorkingDays(sprintStart, sprintEnd, exclusions) * capacityPerDay`. -/
theorem computeDeveloper_capacity_spec (s e : Int)
    (roster : List (String × Nat)) (nm : String) (tasks : Nat)
    (caps : List (String × TeamMemberCapacity)) (c : TeamMemberCapacity)
    (hmem : nm ∈ roster.map Prod.fst)
    (hcap : lookupCap caps nm = some c) :
    lookupCap (buildDevCapacities roster) nm = some defaultCapacity ∧
    (computeDeveloper s e (buildDevCapacities roster) nm tasks).capacityPerDay = 8 ∧
    (computeDeveloper s e (buildDevCapacities roster) nm tasks).daysOff = 0 ∧
    (computeDeveloper s e (buildDevCapacities roster) nm tasks).totalCapacity =
      (calculateWorkingDays s e [] : ℚ) * 8 ∧
    (computeDeveloper s e caps nm tasks).capacityPerDay =
      sumActivities c.activities ∧
    (computeDeveloper s e caps nm tasks).totalCapacity =
      (calculateWorkingDays s e c.daysOff : ℚ) *
        (computeDeveloper s e caps nm tasks).capacityPerDay := by
  have hb := lookupCap_build roster nm hmem
  refine ⟨hb, ?_, ?_, ?_, ?_, ?_⟩ <;>
    simp [computeDeveloper, hb, hcap, defaultCapacity, sumActivities]

/-- Witness for claim C6 with a one-developer roster and the built default
capacity map. -/
theorem computeDeveloper_capacity_spec_witness :
    (computeDeveloper 0 86400 (buildDevCapacities [("alice", 2)]) "alice" 2).capacityPerDay = 8 ∧
    (computeDeveloper 0 86400 (buildDevCapacities [("alice", 2)]) "alice" 2).totalCapacity =
      (calculateWorkingDays 0 86400 [] : ℚ) * 8 :=
  ⟨(computeDeveloper_capacity_spec 0 86400 [("alice", 2)] "alice" 2
      (buildDevCapacities [("alice", 2)]) defaultCapacity (by decide)
      (by decide)).2.1,
   (computeDeveloper_capacity_spec 0 86400 [("alice", 2)] "alice" 2
      (buildDevCapacities [("alice", 2)]) defaultCapacity (by decide)
      (by decide)).2.2.2.1⟩

/-- If the layout loop found nothing, every layout parser fails. -/
theorem firstSome_none (s : List Char) :
    ∀ ps : List (List Char → Option Int), firstSome ps s = none →
      ∀ p, p ∈ ps → p s = none
  | [], _, p, hp => absurd hp (by simp)
  | q :: ps, h, p, hp => by
      rw [firstSome] at h
      cases hq : q s with
      | some t => rw [hq] at h; simp at h
      | none =>
          rw [hq] at h
          rcases List.mem_cons.mp hp with rfl | hp2
          · exact hq
          · exact firstSome_none s ps h p hp2

/-- The RFC 3339 fallback accepts nothing the layout list does not: a
successful fallback parse is a successful parse of the first layout
(`...Z`) or of the third (`...±hh:mm`), with the same timestamp. -/
theorem rfc_fallback_subsumed (s : List Char) (t : Int)
    (h : parseRFC3339Fallback s = some t) :
    parseLayoutISOZ s = some t ∨ parseLayoutISOOffset s = some t := by
  unfold parseRFC3339Fallback at h
  cases hp : parseISODateTime s with
  | none => rw [hp] at h; simp at h
  | some pr =>
      obtain ⟨p, rest⟩ := pr
      rw [hp] at h
      simp only [Option.bind_eq_bind, Option.some_bind] at h
      split at h
      · left
        unfold parseLayoutISOZ
        rw [hp]
        simp only [Option.bind_eq_bind, Option.some_bind, lit]
        simpa using h
      · right
        unfold parseLayoutISOOffset
        rw [hp]
        simp only [Option.bind_eq_bind, Option.some_bind]
        exact h

/-- Claim C7: `parseDate` returns the timestamp of the first layout in the
fixed ordered list that parses the string, and fails with the
unrecognized-date-format error exactly when no layout matches (the trailing
RFC 3339 fallback accepts nothing beyond the first and third layouts, so it
never rescues a string the list rejects). -/
theorem parseDate_first_match (s : String) :
    (∀ t : Int, firstSome layoutParsers s.data = some t →
      parseDate s = Except.ok t) ∧
    (firstSome layoutParsers s.data = none →
      parseDate s = Except.error (unrecognizedMsg s)) := by
  constructor
  · intro t h
    unfold parseDate
    rw [h]
  · intro h
    have hZ : parseLayoutISOZ s.data = none :=
      firstSome_none s.data layoutParsers h _ (by simp [layoutParsers])
    have hOff : parseLayoutISOOffset s.data = none :=
      firstSome_none s.data layoutParsers h _ (by simp [layoutParsers])
    have hrfc : parseRFC3339Fallback s.data = none := by
      cases hr : parseRFC3339Fallback s.data with
      | none => rfl
      | some t =>
          exfalso
          rcases rfc_fallback_subsumed s.data t hr with h1 | h1
          · rw [hZ] at h1; exact Option.noConfusion h1
          · rw [hOff] at h1; exact Option.noConfusion h1
    unfold parseDate
    rw [h, hrfc]

/-- Witness for claim C7: a date-only string parsed by the fourth layout,
and a non-date string that reaches the error. -/
theorem parseDate_first_match_witness :
    parseDate "2024-06-03" = Except.ok 1717372800 ∧
      parseDate "foo" = Except.error (unrecognizedMsg "foo") :=
  ⟨(parseDate_first_match "2024-06-03").1 1717372800 (by decide),
   (parseDate_first_match "foo").2 (by decide)⟩

/-- Claim C8 counterexample: the string "12/11/2006" is accepted by *two*
patterns of the fixed list — `02/01/2006` (day/month: 12 November 2006,
epoch 1163289600) and `1/2/2006` (month/day: 11 December 2006, epoch
1165795200) — with different results, so the patterns are cross-ambiguous
and the result is not order-independent. -/
theorem layouts_cross_ambiguous_cex :
    parseLayoutBRDate "12/11/2006".data = some 1163289600 ∧
      parseLayoutShortDate "12/11/2006".data = some 1165795200 ∧
      (1163289600 : Int) ≠ 1165795200 :=
  ⟨by decide, by decide, by decide⟩

/-- Claim C8 (amended): the pattern list is cross-ambiguous on strings with
two-digit day and month fields, such as "12/11/2006"; `parseDate` then
depends on pattern order and returns the earlier `DD/MM/YYYY`
interpretation (12 November 2006), not the `M/D/YYYY` one (11 December
2006). -/
theorem parseDate_ambiguity_order_dependent :
    parseDate "12/11/2006" = Except.ok 1163289600 ∧
      parseLayoutBRDate "12/11/2006".data = some 1163289600 ∧
      parseLayoutShortDate "12/11/2006".data = some 1165795200 :=
  ⟨by rfl, by decide, by decide⟩

end AdoDueDate
